import Mathlib

/-!
Verification of the ISO 8583 / T112 decoding engine of this repository.

The Python sources are shallowly embedded as executable Lean definitions:
byte buffers are `List Nat` (each byte < 256), Python strings are
`List Char`, Python `float` string conversion is modelled over `ℚ` with
the IEEE specials kept as constructors (`PyFloat`), and fallible Python
code (a raised exception escaping a function) is modelled with `Option`.
-/

set_option maxRecDepth 40000

namespace Mastercard

/-- Python whitespace characters relevant to `str.strip()` / `float()` /
`int()` on ASCII data. -/
def isPySpace (c : Char) : Bool :=
  c = ' ' || c = '\t' || c = '\n' || c = '\x0d' || c = '\x0b' || c = '\x0c'

/-- `s.strip(chars)`: remove leading and trailing characters satisfying `p`. -/
def stripChars (p : Char → Bool) (s : List Char) : List Char :=
  ((s.dropWhile p).reverse.dropWhile p).reverse

/-- Lowercase-hex digit, as produced by Python `bytes.hex()`. -/
def hexDigit (n : Nat) : Char :=
  if n < 10 then Char.ofNat (48 + n) else Char.ofNat (87 + n)

/-- Python `bytes.hex()`: two lowercase hex digits per byte. -/
def bytesHexChars (data : List Nat) : List Char :=
  data.bind (fun b => [hexDigit (b / 16 % 16), hexDigit (b % 16)])

/-- `safe_decode` (src/app.py): try `data.decode('ascii')` (succeeds iff
every byte is < 128), then `.strip('\x00').strip()`; on decode failure
return `data.hex()`. -/
def safe_decode (data : List Nat) : List Char :=
  if data.all (fun b => b < 128) then
    stripChars isPySpace (stripChars (fun c => c = '\x00') (data.map Char.ofNat))
  else
    bytesHexChars data

/-- `int.from_bytes(bytes, 'big')`. -/
def beBytes (l : List Nat) : Nat :=
  l.foldl (fun acc b => acc * 256 + b) 0

/-- Python slice `content[pos:pos+len]` (clamping semantics). -/
def sliceB (content : List Nat) (pos len : Nat) : List Nat :=
  (content.drop pos).take len

/-- Python slice `x[a:b]` on a string, for `a ≤ b`. -/
def slC (x : List Char) (a b : Nat) : List Char :=
  (x.drop a).take (b - a)

/-- Value of an ASCII digit character. -/
def digitVal (c : Char) : Nat := c.toNat - 48

/-- Greedy scan of a Python digit sequence with single underscores allowed
between digits (the CPython numeric-literal rule used by `float()` and
`int()`).  Returns the accumulated value, the digit count, and the rest;
`none` on a misplaced underscore. -/
def digitsGo (acc cnt : Nat) : List Char → Option (Nat × Nat × List Char)
  | [] => some (acc, cnt, [])
  | c :: rest =>
    if c.isDigit then digitsGo (acc * 10 + digitVal c) (cnt + 1) rest
    else if c = '_' then
      match rest with
      | d :: r2 => if d.isDigit then digitsGo (acc * 10 + digitVal d) (cnt + 1) r2 else none
      | [] => none
    else some (acc, cnt, c :: rest)

/-- A digit part: at least one digit, underscores between digits. -/
def parseUDigits (s : List Char) : Option (Nat × Nat × List Char) :=
  match s with
  | c :: rest => if c.isDigit then digitsGo (digitVal c) 1 rest else none
  | [] => none

/-- ASCII lowering, as used case-insensitively by `float()` for inf/nan. -/
def lowerChar (c : Char) : Char :=
  if 'A' ≤ c ∧ c ≤ 'Z' then Char.ofNat (c.toNat + 32) else c

/-- Map `lowerChar` over a string. -/
def toLowerL (s : List Char) : List Char := s.map lowerChar

/-- The value domain of Python `float`, with the ideal (unrounded) value
of finite floats carried as a rational; IEEE rounding is not modelled. -/
inductive PyFloat
  | finite (q : ℚ)
  | inf
  | ninf
  | nan
deriving DecidableEq

/-- Mantissa of a float literal: `digits [. digits?]` or `. digits`. -/
def pyFloatMantissa (s : List Char) : Option (ℚ × List Char) :=
  match parseUDigits s with
  | some (ip, _, rest) =>
    match rest with
    | '.' :: r2 =>
      match parseUDigits r2 with
      | some (fp, fcnt, r3) => some ((ip : ℚ) + (fp : ℚ) / (10 : ℚ) ^ fcnt, r3)
      | none => some ((ip : ℚ), r2)
    | _ => some ((ip : ℚ), rest)
  | none =>
    match s with
    | '.' :: r2 =>
      match parseUDigits r2 with
      | some (fp, fcnt, r3) => some ((fp : ℚ) / (10 : ℚ) ^ fcnt, r3)
      | none => none
    | _ => none

/-- Optional exponent part `([eE] [+-]? digits)?` of a float literal. -/
def pyFloatExp (s : List Char) : Option (Int × List Char) :=
  match s with
  | c :: rest =>
    if lowerChar c = 'e' then
      match rest with
      | '+' :: r2 => (parseUDigits r2).bind (fun v => some ((v.1 : Int), v.2.2))
      | '-' :: r2 => (parseUDigits r2).bind (fun v => some (-(v.1 : Int), v.2.2))
      | r2 => (parseUDigits r2).bind (fun v => some ((v.1 : Int), v.2.2))
    else some (0, c :: rest)
  | [] => some (0, [])

/-- Body of Python `float(string)` after whitespace stripping: an optional
sign, then `inf`/`infinity`/`nan` (case-insensitive) or a mantissa with
optional exponent, consuming the whole string. -/
def pyFloatSigned (s : List Char) : Option PyFloat :=
  let sb : Bool × List Char :=
    match s with
    | '+' :: r => (false, r)
    | '-' :: r => (true, r)
    | r => (false, r)
  if toLowerL sb.2 = "inf".toList ∨ toLowerL sb.2 = "infinity".toList then
    some (if sb.1 then PyFloat.ninf else PyFloat.inf)
  else if toLowerL sb.2 = "nan".toList then some PyFloat.nan
  else
    match pyFloatMantissa sb.2 with
    | some (m, rest) =>
      match pyFloatExp rest with
      | some (e, r3) =>
        if r3 = [] then some (PyFloat.finite ((if sb.1 then -m else m) * (10 : ℚ) ^ e))
        else none
      | none => none
    | none => none

/-- Python `float(string)`: strip surrounding whitespace, then parse;
`none` models a raised `ValueError`. -/
def pyFloat? (s : List Char) : Option PyFloat :=
  pyFloatSigned (stripChars isPySpace s)

/-- Division of a Python float by 100 (ideal value; `inf/100 = inf`,
`nan/100 = nan`). -/
def pyDiv100 : PyFloat → PyFloat
  | PyFloat.finite q => PyFloat.finite (q / 100)
  | PyFloat.inf => PyFloat.inf
  | PyFloat.ninf => PyFloat.ninf
  | PyFloat.nan => PyFloat.nan

/-- Python `int(string)`: strip whitespace, optional sign, then a digit
sequence consuming the whole string; `none` models a raised `ValueError`. -/
def pyInt? (s : List Char) : Option Int :=
  let t := stripChars isPySpace s
  let sb : Bool × List Char :=
    match t with
    | '+' :: r => (false, r)
    | '-' :: r => (true, r)
    | r => (false, r)
  match parseUDigits sb.2 with
  | some (v, _, rest) => if rest = [] then some (if sb.1 then -(v : Int) else (v : Int)) else none
  | none => none

/-- Decode strategy attached to a registry field (the closed enumeration of
the lambdas stored in `ISO_FIELD_DEFS` in src/app.py). -/
inductive Conv
  | idc
  | amountc
  | dtc
  | hmsc
deriving DecidableEq

/-- One `ISO_FIELD_DEFS` entry of src/app.py: display name, fixed length,
type class string, decode strategy. -/
structure FieldDef where
  name : List Char
  flen : Nat
  ftype : List Char
  conv : Conv
deriving DecidableEq

/-- The static field registry `ISO_FIELD_DEFS` of src/app.py. -/
def ISO_FIELD_DEFS (n : Nat) : Option FieldDef :=
  match n with
  | 2 => some ⟨"Primary Account Number".toList, 19, "n".toList, Conv.idc⟩
  | 3 => some ⟨"Processing Code".toList, 6, "n".toList, Conv.idc⟩
  | 4 => some ⟨"Amount Transaction".toList, 12, "n".toList, Conv.amountc⟩
  | 7 => some ⟨"Transmission Date/Time".toList, 10, "n".toList, Conv.dtc⟩
  | 11 => some ⟨"System Trace Audit Number".toList, 6, "n".toList, Conv.idc⟩
  | 12 => some ⟨"Local Transaction Time".toList, 6, "n".toList, Conv.hmsc⟩
  | 22 => some ⟨"POS Data Code".toList, 12, "ans".toList, Conv.idc⟩
  | 24 => some ⟨"Function Code".toList, 3, "n".toList, Conv.idc⟩
  | 32 => some ⟨"Acquiring Institution ID".toList, 11, "n".toList, Conv.idc⟩
  | 37 => some ⟨"Retrieval Reference Number".toList, 12, "ans".toList, Conv.idc⟩
  | 38 => some ⟨"Approval Code".toList, 6, "ans".toList, Conv.idc⟩
  | 41 => some ⟨"Card Acceptor Terminal ID".toList, 16, "ans".toList, Conv.idc⟩
  | 43 => some ⟨"Card Acceptor Name/Location".toList, 99, "ans".toList, Conv.idc⟩
  | 49 => some ⟨"Currency Code".toList, 3, "n".toList, Conv.idc⟩
  | _ => none

/-- `parse_binary_amount` (src/app.py): try the ASCII-numeric decode and
divide by 100; on failure, if at least 6 bytes, unpack
`b'\x00\x00' + data[-6:]` as a big-endian signed 64-bit integer (whose
top bytes are zero, so the value is the unsigned big-endian value of the
trailing 6 bytes) divided by 100; else `None`. -/
def parse_binary_amount (data : List Nat) : Option PyFloat :=
  let decoded := safe_decode data
  match (match decoded with | [] => none | _ => pyFloat? decoded) with
  | some v => some (pyDiv100 v)
  | none =>
    if 6 ≤ data.length then
      some (PyFloat.finite ((beBytes (data.drop (data.length - 6)) : ℚ) / 100))
    else
      none

/-- One decoded field value in a record: a string, a Python float, or
Python `None` (the tagged variant of the spec's duck-typed values). -/
inductive Value
  | vstr (s : List Char)
  | vfloat (f : PyFloat)
  | vnone
deriving DecidableEq

/-- A decoded record: Python dict in insertion order. -/
abbrev Rec := List (List Char × Value)

/-- The timestamp reformatting lambda of field 7 in `ISO_FIELD_DEFS`:
`f"{x[0:2]}-{x[2:4]}-{x[4:6]} {x[6:8]}:{x[8:10]}"`. -/
def dtFormat (x : List Char) : List Char :=
  slC x 0 2 ++ "-".toList ++ slC x 2 4 ++ "-".toList ++ slC x 4 6 ++ " ".toList ++
    slC x 6 8 ++ ":".toList ++ slC x 8 10

/-- The time reformatting lambda of field 12 in `ISO_FIELD_DEFS`:
`f"{x[0:2]}:{x[2:4]}:{x[4:6]}"`. -/
def hmsFormat (x : List Char) : List Char :=
  slC x 0 2 ++ ":".toList ++ slC x 2 4 ++ ":".toList ++ slC x 4 6

/-- Decoding of one present field's bytes inside `parse_iso8583_binary`
(src/app.py lines 104-113): field 4 goes through `parse_binary_amount`
(Python `None` becomes `vnone`); other fields are `safe_decode`d and the
registry lambda applied.  The registry lambdas of fields 7 and 12 are
total, so the hex-fallback `except` branch at line 111 has no reachable
case for them; the field-4 registry lambda (`amountc`, unused on the
binary path because field 4 is special-cased) keeps its hex fallback
since `float(x)` can raise inside it. -/
def decodeFieldValue (fieldPos : Nat) (fd : FieldDef) (fieldData : List Nat) : Value :=
  if fieldPos = 4 then
    match parse_binary_amount fieldData with
    | some f => Value.vfloat f
    | none => Value.vnone
  else
    let decoded := safe_decode fieldData
    match fd.conv with
    | Conv.idc => Value.vstr decoded
    | Conv.amountc =>
      if stripChars isPySpace decoded = [] then Value.vnone
      else
        match pyFloat? decoded with
        | some v => Value.vfloat (pyDiv100 v)
        | none => Value.vstr (bytesHexChars fieldData)
    | Conv.dtc => if decoded = [] then Value.vnone else Value.vstr (dtFormat decoded)
    | Conv.hmsc => if decoded = [] then Value.vnone else Value.vstr (hmsFormat decoded)

/-- `bin(bitmap_int)[2:].zfill(64)` as a boolean list, most significant
bit first (faithful for `bitmap_int < 2^64`, which 8 bytes guarantee). -/
def bitmapBits (B : Nat) : List Bool :=
  (List.range 64).map (fun j => decide (B / 2 ^ (63 - j) % 2 = 1))

/-- The inner field loop of `parse_iso8583_binary` (src/app.py lines
93-115): walk the 64 bitmap digits with a running field number; a set bit
with a registry entry consumes `length` bytes (breaking out of the loop
when fewer remain) and stores the decoded value; any other bit is
skipped.  Returns the final cursor and the accumulated dict. -/
def fieldScan (content : List Nat) : List Bool → Nat → Nat → Rec → Nat × Rec
  | [], _, pos, fs => (pos, fs)
  | b :: rest, fieldPos, pos, fs =>
    if b then
      match ISO_FIELD_DEFS fieldPos with
      | some fd =>
        if content.length < pos + fd.flen then (pos, fs)
        else fieldScan content rest (fieldPos + 1) (pos + fd.flen)
          (fs ++ [(fd.name, decodeFieldValue fieldPos fd (sliceB content pos fd.flen))])
      | none => fieldScan content rest (fieldPos + 1) pos fs
    else fieldScan content rest (fieldPos + 1) pos fs

/-- The initial dict `{'mti': mti, 'record_format': 'binary'}`. -/
def baseRec (mti : List Char) : Rec :=
  [("mti".toList, Value.vstr mti), ("record_format".toList, Value.vstr ("binary".toList))]

/-- One iteration of the `while` loop of `parse_iso8583_binary` after the
MTI and bitmap length guards: decode the MTI, read the bitmap, run the
field loop from cursor `pos + 12`. -/
def parseStep (content : List Nat) (pos : Nat) : Nat × Rec :=
  fieldScan content (bitmapBits (beBytes (sliceB content (pos + 4) 8))) 1 (pos + 4 + 8)
    (baseRec (safe_decode (sliceB content pos 4)))

/-- Cursor monotonicity of the field loop: needed for the termination of
the outer `while` loop. -/
def fieldScan_pos_le (content : List Nat) :
    ∀ (bits : List Bool) (fieldPos pos : Nat) (fs : Rec),
      pos ≤ (fieldScan content bits fieldPos pos fs).1
  | [], _, pos, _ => Nat.le_refl pos
  | b :: rest, fieldPos, pos, fs => by
    simp only [fieldScan]
    cases b with
    | false => exact fieldScan_pos_le content rest (fieldPos + 1) pos fs
    | true =>
      rw [if_pos rfl]
      cases hdef : ISO_FIELD_DEFS fieldPos with
      | none => exact fieldScan_pos_le content rest (fieldPos + 1) pos fs
      | some fd =>
        by_cases hfit : content.length < pos + fd.flen
        · simp [hfit]
        · simp only [if_neg hfit]
          exact Nat.le_trans (Nat.le_add_right pos fd.flen)
            (fieldScan_pos_le content rest (fieldPos + 1) (pos + fd.flen) _)

/-- The outer `while` loop of `parse_iso8583_binary` (src/app.py lines
75-125): needs 4 bytes for an MTI, then 8 for the bitmap (else the pass
ends), then runs the field loop and appends the record.  The body of the
loop raises no exception in the embedded semantics (every helper it calls
is total), so the `except` recovery branch at lines 119-125 — modelled
separately as `recoverStep` — is never entered. -/
def parseLoop (content : List Nat) (pos : Nat) (acc : List Rec) : List Rec :=
  if h4 : pos + 4 ≤ content.length then
    if h8 : pos + 4 + 8 ≤ content.length then
      parseLoop content (parseStep content pos).1 (acc ++ [(parseStep content pos).2])
    else acc
  else acc
termination_by content.length - pos
decreasing_by
  have hmono := fieldScan_pos_le content
    (bitmapBits (beBytes (sliceB content (pos + 4) 8))) 1 (pos + 4 + 8)
    (baseRec (safe_decode (sliceB content pos 4)))
  simp only [parseStep] at *
  omega

/-- `parse_iso8583_binary` (src/app.py). -/
def parse_iso8583_binary (content : List Nat) : List Rec :=
  parseLoop content 0 []

/-- Scan of a byte list, reporting indices offset by `i`. -/
def findFromAux (t : Nat) : List Nat → Nat → Option Nat
  | [], _ => none
  | b :: rest, i => if b = t then some i else findFromAux t rest (i + 1)

/-- `content.find(b'\x02', i)`: index of the first occurrence of byte
`t` at an index ≥ `i`, `none` for Python's `-1`. -/
def findFrom (content : List Nat) (t : Nat) (i : Nat) : Option Nat :=
  findFromAux t (content.drop i) i

/-- The `except` recovery branch of `parse_iso8583_binary` (src/app.py
lines 119-125): search for the next STX byte after the fault position;
not found means `break` (return the records so far, `Sum.inr`); found at
`p` means resume at `p - 4` when `p >= 4`, else at `p` (`Sum.inl`). -/
def recoverStep (content : List Nat) (pos : Nat) (transactions : List Rec) :
    (Nat × List Rec) ⊕ List Rec :=
  match findFrom content 2 (pos + 1) with
  | none => Sum.inr transactions
  | some p => Sum.inl ((if 4 ≤ p then p - 4 else p), transactions)

/-- The field numbers whose bitmap digit is `1`, in the order the field
loop visits them (field number = digit index + 1). -/
def onesPositions : List Bool → Nat → List Nat
  | [], _ => []
  | b :: rest, fieldPos =>
    if b then fieldPos :: onesPositions rest (fieldPos + 1)
    else onesPositions rest (fieldPos + 1)

/-- The set of field numbers the binary record decoder's presence test
(`bit == '1'`) accepts for a bitmap integer `B`. -/
def presentFields (B : Nat) : List Nat :=
  onesPositions (bitmapBits B) 1

/-- The claim's reading of the bitmap decoder contract: only positions
2..64 are reported present, bit 1 being excluded by contract. -/
def claimPresentFields (B : Nat) : List Nat :=
  (presentFields B).filter (fun i => 2 ≤ i)

/-- The present fields that also have a registry entry, paired with their
definitions, in scan order. -/
def activeDefs : List Bool → Nat → List (Nat × FieldDef)
  | [], _ => []
  | b :: rest, fieldPos =>
    if b then
      match ISO_FIELD_DEFS fieldPos with
      | some fd => (fieldPos, fd) :: activeDefs rest (fieldPos + 1)
      | none => activeDefs rest (fieldPos + 1)
    else activeDefs rest (fieldPos + 1)

/-- Field scan re-expressed over the list of present registered fields. -/
def simpleScan (content : List Nat) : List (Nat × FieldDef) → Nat → Rec → Nat × Rec
  | [], pos, fs => (pos, fs)
  | d :: ds, pos, fs =>
    if content.length < pos + d.2.flen then (pos, fs)
    else simpleScan content ds (pos + d.2.flen)
      (fs ++ [(d.2.name, decodeFieldValue d.1 d.2 (sliceB content pos d.2.flen))])

/-- Sequential fit check: every field of the list, laid out consecutively
from `pos`, stays within the buffer. -/
def seqFits (content : List Nat) (pos : Nat) : List (Nat × FieldDef) → Bool
  | [] => true
  | d :: ds => decide (pos + d.2.flen ≤ content.length) && seqFits content (pos + d.2.flen) ds

/-- End cursor after laying out the fields consecutively from `pos`. -/
def endPos (pos : Nat) (ds : List (Nat × FieldDef)) : Nat :=
  pos + (ds.map (fun d => d.2.flen)).sum

/-- Decoded entries of a consecutive run of present registered fields. -/
def decodeAll (content : List Nat) : Nat → List (Nat × FieldDef) → Rec
  | _, [] => []
  | pos, d :: ds =>
    (d.2.name, decodeFieldValue d.1 d.2 (sliceB content pos d.2.flen)) ::
      decodeAll content (pos + d.2.flen) ds

/-- Python regex word character (`\w`) on ASCII data. -/
def isWordChar (c : Char) : Bool := c.isAlphanum || c = '_'

/-- One position of the lookahead `MTI_PATTERN` of src/mti_splitter.py:
`(?=(12[4-9]0|14[4-9]2|16[4-9]4))` matches at `p`. -/
def mtiMatchAt (s : List Char) (p : Nat) : Bool :=
  match s.drop p with
  | a :: b :: c :: d :: _ =>
    a == '1' &&
      ((b == '2' && decide ('4' ≤ c ∧ c ≤ '9') && d == '0') ||
       (b == '4' && decide ('4' ≤ c ∧ c ≤ '9') && d == '2') ||
       (b == '6' && decide ('4' ≤ c ∧ c ≤ '9') && d == '4'))
  | _ => false

/-- All match start positions of `MTI_PATTERN` (a zero-width lookahead,
so `finditer` yields every matching position). -/
def mtiIndexes (content : List Char) : List Nat :=
  (List.range content.length).filter (fun p => mtiMatchAt content p)

/-- Whether position `i` holds a non-word character; out of range counts
as a boundary edge. -/
def nonWordAt (s : List Char) (i : Nat) : Bool :=
  match s.get? i with
  | some c => !isWordChar c
  | none => true

/-- A match of `PAN_PATTERN = \b[45]\d{11,18}\b` (src/mti_splitter.py) of
total length `k` at position `i`. -/
def panMatchAt (s : List Char) (i k : Nat) : Bool :=
  decide (12 ≤ k) && decide (k ≤ 19) && decide (i + k ≤ s.length) &&
  (i == 0 || nonWordAt s (i - 1)) &&
  (match s.get? i with | some c => c == '4' || c == '5' | none => false) &&
  ((s.drop i).take k).all Char.isDigit &&
  nonWordAt s (i + k)

/-- `PAN_PATTERN.search(record)` succeeds. -/
def hasPanMatch (s : List Char) : Bool :=
  (List.range (s.length + 1)).any (fun i => (List.range 20).any (fun k => panMatchAt s i k))

/-- `extract_records_from_raw_text` (src/mti_splitter.py): split at MTI
match positions with a sentinel at the end, strip each segment, keep the
segments in which a PAN match exists.  The `max_record_len` parameter of
the source is unused by the function body and is omitted. -/
def extract_records_from_raw_text (content : List Char) : List (List Char) :=
  let indexes := mtiIndexes content
  if indexes = [] then []
  else
    let idx2 := indexes ++ [content.length]
    ((idx2.zip idx2.tail).map
      (fun ab => stripChars isPySpace ((content.drop ab.1).take (ab.2 - ab.1)))).filter
      hasPanMatch

/-- Whether position `j` holds a digit (out of range counts as no). -/
def digitAt (s : List Char) (j : Nat) : Bool :=
  match s.get? j with
  | some c => c.isDigit
  | none => false

/-- Modelled from the claim's words (C8): the candidate contains "a
12–19-digit run beginning with a card-scheme leading digit" — a maximal
digit run (delimited by non-digits or the string edges) of length 12..19
whose first digit is 4 or 5.  Used to compare the claim's acceptance
test against the source's `PAN_PATTERN`, whose `\b` boundaries also
reject adjacent letters and underscores. -/
def claimPanShape (s : List Char) : Bool :=
  (List.range (s.length + 1)).any (fun i => (List.range 20).any (fun k =>
    decide (12 ≤ k) && decide (k ≤ 19) && decide (i + k ≤ s.length) &&
    (i == 0 || !digitAt s (i - 1)) &&
    (match s.get? i with | some c => c == '4' || c == '5' | none => false) &&
    ((s.drop i).take k).all Char.isDigit &&
    !digitAt s (i + k)))

/-- Modelled from the claim's words (C8): the candidate segments from one
MTI-pattern match start to the next (or end of content), kept when they
contain the claimed account-number shape. -/
def claimExtractRecords (content : List Char) : List (List Char) :=
  let indexes := mtiIndexes content
  if indexes = [] then []
  else
    let idx2 := indexes ++ [content.length]
    ((idx2.zip idx2.tail).map
      (fun ab => (content.drop ab.1).take (ab.2 - ab.1))).filter claimPanShape

/-- One externally loaded per-field specification entry
(`{field_num: {"max_len": .., "type": ..}}` consumed by
src/simple_parser.py); either key may be absent. -/
structure SpecEntry where
  max_len : Option Nat
  ftype : Option (List Char)
deriving DecidableEq

/-- Outcome of reading one specification file: absent, malformed JSON, or
a parsed field map in key order. -/
inductive FileRead
  | missing
  | malformed
  | okspec (spec : List (List Char × SpecEntry))

/-- The file-system environment consumed by src/simple_parser.py: the
loaded `mti_rules.json` dict, the per-MTI `specs/{mti}.json` files and
`specs/default.json`. -/
structure SpecsEnv where
  mtiRules : List (List Char × List Char)
  specFile : List Char → FileRead
  defaultFile : FileRead

/-- `load_spec_for_mti` (src/simple_parser.py): a readable per-MTI file
wins; a missing per-MTI file falls back to the default file; a malformed
per-MTI file (JSONDecodeError) returns `None` without falling back; a
missing or malformed default also returns `None`. -/
def load_spec_for_mti (env : SpecsEnv) (mti : List Char) :
    Option (List (List Char × SpecEntry)) :=
  match env.specFile mti with
  | FileRead.okspec s => some s
  | FileRead.malformed => none
  | FileRead.missing =>
    match env.defaultFile with
    | FileRead.okspec s => some s
    | _ => none

/-- Python `s.split(" ")` (single-character separator, empty parts kept). -/
def splitOnSpace : List Char → List (List Char)
  | [] => [[]]
  | c :: rest =>
    if c = ' ' then [] :: splitOnSpace rest
    else
      match splitOnSpace rest with
      | g :: gs => (c :: g) :: gs
      | [] => [[c]]

/-- Python `str.isdigit()` on ASCII data: nonempty and all digits. -/
def isdigitL (s : List Char) : Bool := !(s.isEmpty) && s.all Char.isDigit

/-- Decimal rendering of a natural number, as Python `str`/f-strings. -/
def natToChars (n : Nat) : List Char := (toString n).toList

/-- `"; ".join(errors)`. -/
def joinSemi : List (List Char) → List Char
  | [] => []
  | [e] => e
  | e :: rest => e ++ "; ".toList ++ joinSemi rest

/-- `validate_iso_fields` (src/simple_parser.py): for each parsed key
starting with `"Field "`, look up the field id (second space-separated
token of the key) in the specification; a present, nonzero `max_len`
different from the value's length records a length error; a declared
`"numeric"` type with a non-`isdigit` value records a numeric error. -/
def validate_iso_fields (parsed : List (List Char × List Char))
    (spec : List (List Char × SpecEntry)) : List (List Char) :=
  match parsed with
  | [] => []
  | (key, value) :: rest =>
    (if ("Field ".toList).isPrefixOf key then
      let field_num := (splitOnSpace key).getD 1 []
      let fspec : SpecEntry := ((spec.lookup field_num)).getD ⟨none, none⟩
      (match fspec.max_len with
        | some l =>
          if l ≠ 0 ∧ value.length ≠ l then
            [key ++ ": length ".toList ++ natToChars value.length ++ " vs ".toList ++ natToChars l]
          else []
        | none => []) ++
      (if fspec.ftype = some ("numeric".toList) ∧ ¬ isdigitL value then
        [key ++ ": expected numeric".toList]
      else [])
    else []) ++ validate_iso_fields rest spec

/-- The field loop of `parse_mastercard_iso8583` (src/simple_parser.py
lines 85-93): each specification entry must carry `max_len` (else the
error return at line 89, modelled as `none`); the field value is the
record slice at the running cursor, stripped. -/
def specFieldsGo (record : List Char) :
    List (List Char × SpecEntry) → Nat → List (List Char × List Char) →
      Option (List (List Char × List Char))
  | [], _, acc => some acc
  | (fid, fs) :: rest, cursor, acc =>
    match fs.max_len with
    | none => none
    | some length =>
      specFieldsGo record rest (cursor + length)
        (acc ++ [("Field ".toList ++ fid,
          stripChars isPySpace (slC record cursor (cursor + length)))])

/-- `parse_mastercard_iso8583` (src/simple_parser.py). -/
def parse_mastercard_iso8583 (env : SpecsEnv) (record0 : List Char) :
    List (List Char × List Char) :=
  let record := stripChars isPySpace record0
  let mti := record.take 4
  let meaning := ((env.mtiRules.lookup mti)).getD
    (if mti = [] then "Missing MTI".toList
     else "Unknown MTI (".toList ++ mti ++ ")".toList)
  match load_spec_for_mti env mti with
  | none =>
    [("MTI".toList, mti), ("MTI Meaning".toList, meaning),
     ("Status".toList, "❌ Error: No Spec".toList)]
  | some spec =>
    match specFieldsGo record spec 4 [] with
    | none =>
      [("MTI".toList, mti), ("MTI Meaning".toList, meaning),
       ("Status".toList, "❌ Error: Missing Spec Config".toList)]
    | some fieldEntries =>
      let parsed := [("MTI".toList, mti), ("MTI Meaning".toList, meaning)] ++ fieldEntries
      let errors := validate_iso_fields parsed spec
      parsed ++ [("Validation Errors".toList, joinSemi errors),
        ("Status".toList, if errors = [] then "✅ Pass".toList else "❌ Fail".toList)]

/-- The per-record comprehension `[parse_mastercard_iso8583(rec) for rec
in records]` of src/simple_parser.py. -/
def parse_mastercard_all (env : SpecsEnv) (records : List (List Char)) :
    List (List (List Char × List Char)) :=
  records.map (parse_mastercard_iso8583 env)

/-- `T112_RECORD_LENGTH` (src/mastercard_parser.py) and `RECORD_LENGTH`
(src/t112new.py). -/
def T112_RECORD_LENGTH : Nat := 256

/-- `[data[i:i+256] for i in range(0, len(data), 256)]`. -/
def chunksOf256 (data : List Nat) : List (List Nat) :=
  if data = [] then [] else data.take 256 :: chunksOf256 (data.drop 256)
termination_by data.length
decreasing_by
  rename_i hne
  have hlen : 0 < data.length := List.length_pos.mpr hne
  simp [List.length_drop]
  omega

/-- `rec.decode('ascii', errors='ignore')`: bytes ≥ 128 are dropped. -/
def decodeAsciiIgnore (r : List Nat) : List Char :=
  (r.filter (fun b => b < 128)).map Char.ofNat

/-- The record list of `process_t112_file` (src/mastercard_parser.py
lines 55-56) and of src/t112new.py lines 49-50 (identical code): full
256-byte chunks, decoded ASCII-ignore. -/
def t112Records (data : List Nat) : List (List Char) :=
  ((chunksOf256 data).filter (fun r => r.length = T112_RECORD_LENGTH)).map decodeAsciiIgnore

/-- The fixed-width field table of `parse_t112_record`
(src/mastercard_parser.py). -/
def t112Fields : List (List Char × Nat × Nat) :=
  [("MTI".toList, 0, 4), ("PAN".toList, 4, 19), ("Processing Code".toList, 23, 6),
   ("Amount".toList, 29, 12), ("Local Date/Time".toList, 61, 10),
   ("Card Expiry".toList, 71, 4), ("MCC".toList, 88, 4), ("Terminal ID".toList, 159, 8),
   ("Merchant ID".toList, 167, 15), ("Merchant Name".toList, 182, 40)]

/-- Python `str(int)`. -/
def intToChars (n : Int) : List Char := (toString n).toList

/-- The field loop of `parse_t112_record` (src/mastercard_parser.py):
slice and strip each field; PAN keeps only alphanumerics; Amount is
normalised through `str(int(value or '0'))` whose `int()` call raises
`ValueError` on non-numeric content (modelled as `none`), uncaught by
the source. -/
def t112FieldsGo (record : List Char) :
    List (List Char × Nat × Nat) → List (List Char × List Char) →
      Option (List (List Char × List Char))
  | [], acc => some acc
  | (name, start, len) :: rest, acc =>
    let value := stripChars isPySpace ((record.drop start).take len)
    if name = "PAN".toList then
      t112FieldsGo record rest (acc ++ [(name, value.filter Char.isAlphanum)])
    else if name = "Amount".toList then
      match pyInt? (match value with | [] => "0".toList | _ => value) with
      | some n => t112FieldsGo record rest (acc ++ [(name, intToChars n)])
      | none => none
    else t112FieldsGo record rest (acc ++ [(name, value)])

/-- `parse_t112_record` (src/mastercard_parser.py); `none` models the
uncaught `ValueError` of the Amount normalisation. -/
def parse_t112_record (record : List Char) :
    Option (List (List Char × List Char)) :=
  t112FieldsGo record t112Fields []

/-- `MASTERCARD_MTI_CODES` (src/mastercard_parser.py). -/
def MASTERCARD_MTI_CODES (mti : List Char) : Option (List Char) :=
  if mti = "1240".toList then some ("Authorization Request".toList)
  else if mti = "1250".toList then some ("Authorization Response".toList)
  else if mti = "1420".toList then some ("Clearing Advice".toList)
  else if mti = "1430".toList then some ("Clearing Advice Response".toList)
  else if mti = "1440".toList then some ("Clearing Notification".toList)
  else none

/-- The `Description` component of `analyze_mti` (src/mastercard_parser.py),
the only component `process_t112_file` consumes. -/
def analyze_mti_desc (mti : List Char) : List Char :=
  if mti.length ≠ 4 then "Invalid MTI".toList
  else (MASTERCARD_MTI_CODES mti).getD ("Unknown Transaction Type".toList)

/-- The parse-and-annotate loop of `process_t112_file`
(src/mastercard_parser.py lines 58-64); a raised `ValueError` from any
record aborts the whole pass (`none`). -/
def processGo : List (List Char) → Option (List (List (List Char × List Char)))
  | [] => some []
  | rec :: rest =>
    match parse_t112_record rec with
    | none => none
    | some parsed =>
      let parsed2 := parsed ++
        [("Transaction Type".toList, analyze_mti_desc (((parsed.lookup ("MTI".toList))).getD []))]
      match processGo rest with
      | none => none
      | some ps => some (parsed2 :: ps)

/-- `process_t112_file` (src/mastercard_parser.py): the parsed records
and the reported record count `len(records)` (the CSV/DataFrame render is
display-layer and not modelled); `none` models the uncaught
`ValueError`. -/
def process_t112_file (data : List Nat) :
    Option (List (List (List Char × List Char)) × Nat) :=
  let records := t112Records data
  match processGo records with
  | none => none
  | some parsed => some (parsed, records.length)

/-- The `FIELDS` table of src/t112new.py. -/
def t112new_FIELDS : List (List Char × Nat × Nat) :=
  [("MTI".toList, 0, 4), ("PAN".toList, 4, 19), ("Processing Code".toList, 23, 6),
   ("Amount Transaction".toList, 29, 12), ("Amount Reconciliation".toList, 41, 12),
   ("Conversion Rate Reconciliation".toList, 53, 8),
   ("Local Transaction Date/Time".toList, 61, 10), ("Date Expiration".toList, 71, 4),
   ("POS Data Code".toList, 75, 3), ("Card Sequence Number".toList, 78, 3),
   ("Function Code".toList, 81, 3), ("Message Reason Code".toList, 84, 4),
   ("Card Acceptor Business Code".toList, 88, 4), ("Amounts Original".toList, 92, 12),
   ("Acquirer Reference Data".toList, 104, 12),
   ("Acquiring Institution ID Code".toList, 116, 11),
   ("Forwarding Institution ID Code".toList, 127, 11),
   ("Retrieval Reference Number".toList, 138, 12), ("Approval Code".toList, 150, 6),
   ("Service Code".toList, 156, 3), ("Card Acceptor Terminal ID".toList, 159, 8),
   ("Card Acceptor ID Code".toList, 167, 15),
   ("Card Acceptor Name/Location".toList, 182, 40), ("Additional Data".toList, 222, 34)]

/-- `parse_record` (src/t112new.py): pure slicing and stripping, total. -/
def t112new_parse_record (record : List Char) : List (List Char × List Char) :=
  t112new_FIELDS.map (fun f => (f.1, stripChars isPySpace ((record.drop f.2.1).take f.2.2)))

/-- The record list of src/t112new.py lines 49-50 (same chunking code as
`process_t112_file`). -/
def t112new_records (data : List Nat) : List (List Char) :=
  t112Records data

/-- The parsed rows src/t112new.py writes to its CSV, one per record. -/
def t112new_parsed (data : List Nat) : List (List (List Char × List Char)) :=
  (t112new_records data).map t112new_parse_record

/-- The string `parse_t112_record` feeds to `int()` for the Amount field:
the stripped slice at 29..41, or `"0"` when it strips to empty. -/
def amountArg (record : List Char) : List Char :=
  match stripChars isPySpace ((record.drop 29).take 12) with
  | [] => "0".toList
  | v => v

/-! Helper lemmas shared by the claim theorems. -/

/-- Membership characterisation of `onesPositions`. -/
theorem mem_onesPositions (bits : List Bool) :
    ∀ (fieldPos i : Nat), i ∈ onesPositions bits fieldPos ↔
      ∃ j, bits.get? j = some true ∧ i = fieldPos + j := by
  induction bits with
  | nil =>
    intro fp i
    simp [onesPositions]
  | cons b rest ih =>
    intro fp i
    cases b with
    | true =>
      rw [show onesPositions (true :: rest) fp = fp :: onesPositions rest (fp + 1) from rfl]
      rw [List.mem_cons, ih (fp + 1) i]
      constructor
      · rintro (rfl | ⟨j, hj, rfl⟩)
        · exact ⟨0, by simp, by simp⟩
        · exact ⟨j + 1, by simpa using hj, by omega⟩
      · rintro ⟨j, hj, rfl⟩
        cases j with
        | zero => left; simp
        | succ j2 =>
          right
          exact ⟨j2, by simpa using hj, by omega⟩
    | false =>
      rw [show onesPositions (false :: rest) fp = onesPositions rest (fp + 1) from rfl]
      rw [ih (fp + 1) i]
      constructor
      · rintro ⟨j, hj, rfl⟩
        exact ⟨j + 1, by simpa using hj, by omega⟩
      · rintro ⟨j, hj, rfl⟩
        cases j with
        | zero => simp at hj
        | succ j2 => exact ⟨j2, by simpa using hj, by omega⟩

/-- `findFromAux` success: the reported index is in range and is the
first hit at or after the offset. -/
theorem findFromAux_some (t : Nat) :
    ∀ (l : List Nat) (i p : Nat), findFromAux t l i = some p →
      i ≤ p ∧ l.get? (p - i) = some t ∧ ∀ j, j < p - i → l.get? j ≠ some t := by
  intro l
  induction l with
  | nil => intro i p h; simp [findFromAux] at h
  | cons b rest ih =>
    intro i p h
    rw [findFromAux] at h
    by_cases hb : b = t
    · rw [if_pos hb] at h
      have hip : i = p := by simpa using h
      subst hip
      refine ⟨Nat.le_refl i, by simp [hb], fun j hj => absurd hj (by omega)⟩
    · rw [if_neg hb] at h
      obtain ⟨hip, hg, hmin⟩ := ih (i + 1) p h
      refine ⟨by omega, ?_, ?_⟩
      · rw [show p - i = (p - (i + 1)) + 1 from by omega]
        simpa using hg
      · intro j hj
        cases j with
        | zero => simpa using hb
        | succ j2 =>
          have := hmin j2 (by omega)
          simpa using this

/-- `findFromAux` failure: no hit anywhere in the scanned list. -/
theorem findFromAux_none (t : Nat) :
    ∀ (l : List Nat) (i : Nat), findFromAux t l i = none →
      ∀ j, l.get? j ≠ some t := by
  intro l
  induction l with
  | nil => intro i _ j; simp
  | cons b rest ih =>
    intro i h j
    rw [findFromAux] at h
    by_cases hb : b = t
    · rw [if_pos hb] at h
      exact absurd h (by simp)
    · rw [if_neg hb] at h
      cases j with
      | zero => simpa using hb
      | succ j2 => simpa using ih (i + 1) h j2

/-- `findFrom` success, expressed over the whole buffer. -/
theorem findFrom_some (content : List Nat) (t i p : Nat)
    (h : findFrom content t i = some p) :
    i ≤ p ∧ content.get? p = some t ∧
      ∀ j, i ≤ j → j < p → content.get? j ≠ some t := by
  obtain ⟨hip, hg, hmin⟩ := findFromAux_some t (content.drop i) i p h
  refine ⟨hip, ?_, ?_⟩
  · rw [List.get?_drop] at hg
    rwa [show i + (p - i) = p from by omega] at hg
  · intro j hj1 hj2
    have := hmin (j - i) (by omega)
    rw [List.get?_drop, show i + (j - i) = j from by omega] at this
    exact this

/-- `findFrom` failure, expressed over the whole buffer. -/
theorem findFrom_none (content : List Nat) (t i : Nat)
    (h : findFrom content t i = none) :
    ∀ j, i ≤ j → content.get? j ≠ some t := by
  intro j hj
  have := findFromAux_none t (content.drop i) i h (j - i)
  rw [List.get?_drop, show i + (j - i) = j from by omega] at this
  exact this

/-- Loop step: enough bytes for MTI and bitmap means one record is
scanned and appended. -/
theorem parseLoop_step (content : List Nat) (pos : Nat) (acc : List Rec)
    (h4 : pos + 4 ≤ content.length) (h8 : pos + 4 + 8 ≤ content.length) :
    parseLoop content pos acc =
      parseLoop content (parseStep content pos).1 (acc ++ [(parseStep content pos).2]) := by
  conv_lhs => rw [parseLoop]
  rw [dif_pos h4, dif_pos h8]

/-- Loop end: fewer than 4 bytes left. -/
theorem parseLoop_stop_mti (content : List Nat) (pos : Nat) (acc : List Rec)
    (h : ¬ pos + 4 ≤ content.length) : parseLoop content pos acc = acc := by
  conv_lhs => rw [parseLoop]
  rw [dif_neg h]

/-- Loop end: an MTI fits but the bitmap does not. -/
theorem parseLoop_stop_bitmap (content : List Nat) (pos : Nat) (acc : List Rec)
    (h4 : pos + 4 ≤ content.length) (h8 : ¬ pos + 4 + 8 ≤ content.length) :
    parseLoop content pos acc = acc := by
  conv_lhs => rw [parseLoop]
  rw [dif_pos h4, dif_neg h8]

/-- The field scan advances the cursor past the MTI and bitmap. -/
theorem parseStep_fst_le (content : List Nat) (pos : Nat) :
    pos + 4 + 8 ≤ (parseStep content pos).1 :=
  fieldScan_pos_le content (bitmapBits (beBytes (sliceB content (pos + 4) 8))) 1
    (pos + 4 + 8) (baseRec (safe_decode (sliceB content pos 4)))

/-- The loop accumulator only collects: the records decoded so far are
returned unchanged in front of whatever is decoded later. -/
theorem parseLoop_acc (content : List Nat) :
    ∀ (m pos : Nat), content.length - pos = m → ∀ (acc : List Rec),
      parseLoop content pos acc = acc ++ parseLoop content pos [] := by
  intro m
  induction m using Nat.strong_induction_on with
  | _ m ih =>
    intro pos hm acc
    by_cases h4 : pos + 4 ≤ content.length
    · by_cases h8 : pos + 4 + 8 ≤ content.length
      · have hmono := parseStep_fst_le content pos
        rw [parseLoop_step content pos acc h4 h8,
            parseLoop_step content pos [] h4 h8]
        rw [ih (content.length - (parseStep content pos).1) (by omega) _ rfl
          (acc ++ [(parseStep content pos).2])]
        rw [ih (content.length - (parseStep content pos).1) (by omega) _ rfl
          ([] ++ [(parseStep content pos).2])]
        simp
      · rw [parseLoop_stop_bitmap content pos acc h4 h8,
            parseLoop_stop_bitmap content pos [] h4 h8]
        simp
    · rw [parseLoop_stop_mti content pos acc h4,
          parseLoop_stop_mti content pos [] h4]
      simp

/-- Accumulator form of `parseLoop_acc`. -/
theorem parseLoop_append_eq (content : List Nat) (pos : Nat) (acc : List Rec) :
    parseLoop content pos acc = acc ++ parseLoop content pos [] :=
  parseLoop_acc content (content.length - pos) pos rfl acc

/-! Claim theorems. -/

/-- C1, counterexample: for `B = 2^63 + 2^59` (bits 1 and 5 set) the
decoder's presence test accepts fields 1 and 5, while the claimed set of
bit positions 2..64 is just field 5 — bit 1 is not excluded by the
code. -/
theorem c1_counterexample :
    presentFields (2 ^ 63 + 2 ^ 59) = [1, 5] ∧
      claimPresentFields (2 ^ 63 + 2 ^ 59) = [5] ∧
      presentFields (2 ^ 63 + 2 ^ 59) ≠ claimPresentFields (2 ^ 63 + 2 ^ 59) := by
  decide

/-- C1, amended: decoding the 8-byte big-endian encoding of `B` yields as
present exactly the set bit positions 1..64 of `B` — bit 1 included; the
registry simply has no entry for field 1 (`ISO_FIELD_DEFS 1 = none`), so
a present field 1 is never decoded. -/
theorem c1_bitmap_presence (B : Nat) (hB : B < 2 ^ 64) (i : Nat) :
    (i ∈ presentFields B ↔ 1 ≤ i ∧ i ≤ 64 ∧ B / 2 ^ (64 - i) % 2 = 1) ∧
      ISO_FIELD_DEFS 1 = none := by
  refine ⟨?_, rfl⟩
  clear hB
  rw [presentFields, mem_onesPositions]
  constructor
  · rintro ⟨j, hj, rfl⟩
    have hlen : j < 64 := by
      by_contra hc
      push_neg at hc
      rw [List.get?_eq_none.mpr (by simp [bitmapBits]; omega)] at hj
      exact Option.noConfusion hj
    rw [bitmapBits, List.get?_map, List.get?_range hlen] at hj
    simp only [Option.map_some', Option.some.injEq, decide_eq_true_eq] at hj
    refine ⟨by omega, by omega, ?_⟩
    rwa [show 63 - j = 64 - (1 + j) from by omega] at hj
  · rintro ⟨h1, h64, hbit⟩
    refine ⟨i - 1, ?_, by omega⟩
    rw [bitmapBits, List.get?_map, List.get?_range (by omega)]
    simp only [Option.map_some', Option.some.injEq, decide_eq_true_eq]
    rw [show 63 - (i - 1) = 64 - i from by omega]
    exact hbit

/-- C1, witness: at `B = 5`, field 62 (bit value `2^2`) is reported
present. -/
theorem c1_bitmap_presence_witness :
    62 ∈ presentFields 5 ∧ ISO_FIELD_DEFS 1 = none :=
  ⟨((c1_bitmap_presence 5 (by norm_num) 62).1).mpr (by norm_num),
   (c1_bitmap_presence 5 (by norm_num) 62).2⟩

/-- C5: the resynchronizer scans forward from `fault_position + 1` for
the next STX byte; found at `p`, decoding resumes at `p - 4` when that
offset is non-negative (`4 ≤ p`), else at `p`; not found, the pass stops
and the records decoded so far are returned unchanged. -/
theorem c5_resync_contract (content : List Nat) (pos : Nat) (ts : List Rec) :
    (∀ q ts2, recoverStep content pos ts = Sum.inl (q, ts2) →
      ts2 = ts ∧ ∃ p, (pos + 1 ≤ p ∧ content.get? p = some 2 ∧
        ∀ i, pos + 1 ≤ i → i < p → content.get? i ≠ some 2) ∧
        q = if 4 ≤ p then p - 4 else p) ∧
    (∀ ts2, recoverStep content pos ts = Sum.inr ts2 →
      ts2 = ts ∧ ∀ i, pos + 1 ≤ i → content.get? i ≠ some 2) := by
  constructor
  · intro q ts2 h
    rw [recoverStep] at h
    cases hf : findFrom content 2 (pos + 1) with
    | none => rw [hf] at h; exact absurd h (by simp)
    | some p =>
      rw [hf] at h
      simp only [Sum.inl.injEq, Prod.mk.injEq] at h
      obtain ⟨hq, hts⟩ := h
      obtain ⟨hip, hg, hmin⟩ := findFrom_some content 2 (pos + 1) p hf
      exact ⟨hts.symm, p, ⟨hip, hg, hmin⟩, hq.symm⟩
  · intro ts2 h
    rw [recoverStep] at h
    cases hf : findFrom content 2 (pos + 1) with
    | none =>
      rw [hf] at h
      simp only [Sum.inr.injEq] at h
      exact ⟨h.symm, findFrom_none content 2 (pos + 1) hf⟩
    | some p => rw [hf] at h; exact absurd h (by simp)

/-- C5, witness: on `[0,0,0,0,0,2]` with fault position 0 the marker is
found at index 5 and decoding resumes at `5 - 4 = 1`. -/
theorem c5_resync_contract_witness :
    ∃ p, (0 + 1 ≤ p ∧ ([0, 0, 0, 0, 0, 2] : List Nat).get? p = some 2 ∧
      ∀ i, 0 + 1 ≤ i → i < p → ([0, 0, 0, 0, 0, 2] : List Nat).get? i ≠ some 2) ∧
      1 = if 4 ≤ p then p - 4 else p :=
  (((c5_resync_contract [0, 0, 0, 0, 0, 2] 0 []).1) 1 [] rfl).2

/-- C6, counterexample: a resynchronization step can move the cursor
backwards — with a marker at index 11 and fault position 10, decoding
resumes at `11 - 4 = 7 < 10`. -/
theorem c6_counterexample :
    recoverStep (List.replicate 11 0 ++ [2]) 10 [] = Sum.inl (7, []) ∧ 7 < 10 := by
  exact ⟨rfl, by norm_num⟩

/-- C6, amended: the field scan never decreases the cursor, and the
resynchronization step moves it back at most 3 bytes (the resumed cursor
`q` satisfies `pos ≤ q + 3`). -/
theorem c6_cursor_bounded (content : List Nat) (bits : List Bool)
    (fieldPos pos : Nat) (fs : Rec) (ts : List Rec) (q : Nat) (ts2 : List Rec) :
    pos ≤ (fieldScan content bits fieldPos pos fs).1 ∧
      (recoverStep content pos ts = Sum.inl (q, ts2) → pos ≤ q + 3) := by
  refine ⟨fieldScan_pos_le content bits fieldPos pos fs, ?_⟩
  intro h
  rw [recoverStep] at h
  cases hf : findFrom content 2 (pos + 1) with
  | none => rw [hf] at h; exact absurd h (by simp)
  | some p =>
    rw [hf] at h
    simp only [Sum.inl.injEq, Prod.mk.injEq] at h
    obtain ⟨hip, _, _⟩ := findFrom_some content 2 (pos + 1) p hf
    obtain ⟨hq, -⟩ := h
    subst hq
    split
    · omega
    · omega

/-- C6, witness: concrete instance of the cursor bound (marker at index
4, fault position 0, resumed cursor 0). -/
theorem c6_cursor_bounded_witness :
    0 ≤ (fieldScan [0, 0, 0, 0, 2] (bitmapBits 0) 1 0 []).1 ∧ 0 ≤ 0 + 3 :=
  ⟨(c6_cursor_bounded [0, 0, 0, 0, 2] (bitmapBits 0) 1 0 [] [] 0 []).1,
   (c6_cursor_bounded [0, 0, 0, 0, 2] (bitmapBits 0) 1 0 [] [] 0 []).2 rfl⟩

/-- C2, counterexample: the 6-byte big-endian packing of 12345 is
`[0,0,0,0,48,57]`, whose trailing bytes are the ASCII digits `"09"`; the
ASCII path strips the NUL padding, parses `"09"` and returns 0.09, never
reaching the packed-binary fallback — not 123.45. -/
theorem c2_counterexample :
    beBytes [0, 0, 0, 0, 48, 57] = 12345 ∧
      parse_binary_amount [0, 0, 0, 0, 48, 57] = some (PyFloat.finite (9 / 100 : ℚ)) ∧
      PyFloat.finite (9 / 100 : ℚ) ≠ PyFloat.finite (12345 / 100 : ℚ) := by
  refine ⟨by decide, ?_, ?_⟩
  · have h : parse_binary_amount [0, 0, 0, 0, 48, 57] =
        some (PyFloat.finite (((9 : ℕ) : ℚ) * (10 : ℚ) ^ (0 : ℤ) / 100)) := rfl
    rw [h, show ((9 : ℕ) : ℚ) * (10 : ℚ) ^ (0 : ℤ) / 100 = 9 / 100 from by norm_num]
  · intro hc
    have : (9 / 100 : ℚ) = 12345 / 100 := PyFloat.finite.inj hc
    norm_num at this

/-- C2, amended: the ASCII digit string `"000000012345"` decodes to
123.45; the 6-byte big-endian packing of 12345 decodes to 0.09 because
the ASCII path succeeds on its NUL-stripped trailing digits and takes
precedence; the packed-binary reinterpretation of the trailing 6 bytes
divided by 100 applies only when the ASCII path yields no number, and
when the ASCII path fails on fewer than 6 bytes the result is null. -/
theorem c2_amount_paths :
    parse_binary_amount ("000000012345".toList.map Char.toNat) =
        some (PyFloat.finite (12345 / 100 : ℚ)) ∧
      parse_binary_amount [0, 0, 0, 0, 48, 57] = some (PyFloat.finite (9 / 100 : ℚ)) ∧
      ∀ data : List Nat,
        (safe_decode data = [] ∨ pyFloat? (safe_decode data) = none) →
        (6 ≤ data.length →
          parse_binary_amount data =
            some (PyFloat.finite ((beBytes (data.drop (data.length - 6)) : ℚ) / 100))) ∧
        (data.length < 6 → parse_binary_amount data = none) := by
  refine ⟨?_, ?_, ?_⟩
  · have h : parse_binary_amount ("000000012345".toList.map Char.toNat) =
        some (PyFloat.finite (((12345 : ℕ) : ℚ) * (10 : ℚ) ^ (0 : ℤ) / 100)) := rfl
    rw [h, show ((12345 : ℕ) : ℚ) * (10 : ℚ) ^ (0 : ℤ) / 100 = 12345 / 100 from by norm_num]
  · have h : parse_binary_amount [0, 0, 0, 0, 48, 57] =
        some (PyFloat.finite (((9 : ℕ) : ℚ) * (10 : ℚ) ^ (0 : ℤ) / 100)) := rfl
    rw [h, show ((9 : ℕ) : ℚ) * (10 : ℚ) ^ (0 : ℤ) / 100 = 9 / 100 from by norm_num]
  · intro data hfail
    have hmatch : (match safe_decode data with
        | [] => none
        | _ => pyFloat? (safe_decode data)) = (none : Option PyFloat) := by
      rcases hfail with h | h
      · rw [h]
      · cases hsd : safe_decode data with
        | nil => rfl
        | cons c cs =>
          show pyFloat? (c :: cs) = none
          rw [← hsd]
          exact h
    constructor
    · intro hlen
      rw [parse_binary_amount]
      rw [hmatch, if_pos hlen]
    · intro hlen
      rw [parse_binary_amount]
      rw [hmatch, if_neg (by omega)]

/-- C2, witness: a 1-byte non-numeric input yields null, and a 6-byte
input whose decode is non-numeric takes the packed-binary path. -/
theorem c2_amount_paths_witness :
    parse_binary_amount [65] = none ∧
      parse_binary_amount [200, 0, 0, 0, 0, 0] =
        some (PyFloat.finite
          ((beBytes (([200, 0, 0, 0, 0, 0] : List Nat).drop
            (([200, 0, 0, 0, 0, 0] : List Nat).length - 6)) : ℚ) / 100)) :=
  ⟨(c2_amount_paths.2.2 [65] (Or.inr (by decide))).2 (by norm_num),
   (c2_amount_paths.2.2 [200, 0, 0, 0, 0, 0] (Or.inr (by decide))).1 (by norm_num)⟩

/-- Every entry the field scan adds on top of the initial dict carries
the name of some registry field. -/
theorem fieldScan_keys (content : List Nat) :
    ∀ (bits : List Bool) (fieldPos pos : Nat) (fs : Rec) (kv : List Char × Value),
      kv ∈ (fieldScan content bits fieldPos pos fs).2 →
      kv ∈ fs ∨ ∃ n fd, ISO_FIELD_DEFS n = some fd ∧ kv.1 = fd.name := by
  intro bits
  induction bits with
  | nil =>
    intro fp pos fs kv h
    exact Or.inl h
  | cons b rest ih =>
    intro fp pos fs kv h
    rw [fieldScan] at h
    cases b with
    | false => exact ih (fp + 1) pos fs kv h
    | true =>
      rw [if_pos rfl] at h
      split at h
      · rename_i fd hdef
        split at h
        · exact Or.inl h
        · rcases ih (fp + 1) (pos + fd.flen) _ kv h with hin | hreg
          · rcases List.mem_append.mp hin with hin2 | hin2
            · exact Or.inl hin2
            · right
              refine ⟨fp, fd, hdef, ?_⟩
              have : kv = (fd.name, decodeFieldValue fp fd (sliceB content pos fd.flen)) := by
                simpa using hin2
              rw [this]
          · exact Or.inr hreg
      · exact ih (fp + 1) pos fs kv h

/-- Every key of every record the loop appends is `mti`,
`record_format`, or a registry field name. -/
theorem parseLoop_keys (content : List Nat) :
    ∀ (m pos : Nat), content.length - pos = m →
      ∀ (acc : List Rec) (r : Rec), r ∈ parseLoop content pos acc →
        r ∈ acc ∨ ∀ kv ∈ r, kv.1 = "mti".toList ∨ kv.1 = "record_format".toList ∨
          ∃ n fd, ISO_FIELD_DEFS n = some fd ∧ kv.1 = fd.name := by
  intro m
  induction m using Nat.strong_induction_on with
  | _ m ih =>
    intro pos hm acc r hr
    by_cases h4 : pos + 4 ≤ content.length
    · by_cases h8 : pos + 4 + 8 ≤ content.length
      · have hmono := parseStep_fst_le content pos
        rw [parseLoop_step content pos acc h4 h8] at hr
        rcases ih (content.length - (parseStep content pos).1) (by omega) _ rfl
            (acc ++ [(parseStep content pos).2]) r hr with hin | hq
        · rcases List.mem_append.mp hin with hin2 | hin2
          · exact Or.inl hin2
          · right
            intro kv hkv
            have hr2 : r = (parseStep content pos).2 := by simpa using hin2
            rw [hr2] at hkv
            rcases fieldScan_keys content _ _ _ _ kv hkv with hbase | hreg
            · rcases List.mem_cons.mp hbase with h1 | h1
              · left; rw [h1]
              · right; left
                have : kv = ("record_format".toList, Value.vstr ("binary".toList)) := by
                  simpa using h1
                rw [this]
            · right; right; exact hreg
        · exact Or.inr hq
      · rw [parseLoop_stop_bitmap content pos acc h4 h8] at hr
        exact Or.inl hr
    · rw [parseLoop_stop_mti content pos acc h4] at hr
      exact Or.inl hr

/-- C3, counterexample: a 12-byte record whose bitmap marks only field 5
(no registry entry) decodes to a record holding just `mti` and
`record_format` — no `"Field 5"` key is emitted and no field bytes are
consumed. -/
theorem c3_counterexample :
    parse_iso8583_binary ([49, 50, 52, 48] ++ [8, 0, 0, 0, 0, 0, 0, 0]) =
      [[("mti".toList, Value.vstr ("1240".toList)),
        ("record_format".toList, Value.vstr ("binary".toList))]] ∧
      presentFields (beBytes [8, 0, 0, 0, 0, 0, 0, 0]) = [5] ∧
      ISO_FIELD_DEFS 5 = none := by
  refine ⟨?_, by decide, rfl⟩
  show parseLoop _ 0 [] = _
  rw [parseLoop_step _ 0 [] (by decide) (by decide)]
  rw [show parseStep ([49, 50, 52, 48] ++ [8, 0, 0, 0, 0, 0, 0, 0]) 0 =
      (12, [("mti".toList, Value.vstr ("1240".toList)),
            ("record_format".toList, Value.vstr ("binary".toList))]) from by decide]
  rw [parseLoop_stop_mti _ 12 _ (by decide)]
  rfl

/-- C3, amended: a present bit with no registry definition is skipped
outright — the scan consumes no bytes for it and emits no entry (no
synthetic `"Field N"` name): record keys never leave
`{mti, record_format}` ∪ registry names. -/
theorem c3_registry_miss_skipped :
    (∀ (content : List Nat) (r : Rec) (kv : List Char × Value),
      r ∈ parse_iso8583_binary content → kv ∈ r →
      kv.1 = "mti".toList ∨ kv.1 = "record_format".toList ∨
        ∃ n fd, ISO_FIELD_DEFS n = some fd ∧ kv.1 = fd.name) ∧
    (∀ (content : List Nat) (bits : List Bool) (fieldPos pos : Nat) (fs : Rec),
      ISO_FIELD_DEFS fieldPos = none →
      fieldScan content (true :: bits) fieldPos pos fs =
        fieldScan content bits (fieldPos + 1) pos fs) := by
  constructor
  · intro content r kv hr hkv
    rcases parseLoop_keys content (content.length - 0) 0 rfl [] r hr with hin | hq
    · exact absurd hin (by simp)
    · exact hq kv hkv
  · intro content bits fp pos fs hdef
    rw [fieldScan, if_pos rfl, hdef]

/-- C3, witness: a record with field 3 present and registered decodes
its entry under the registry name, within the allowed key set. -/
theorem c3_registry_miss_skipped_witness :
    ("Processing Code".toList, Value.vstr ("123456".toList)).1 = "mti".toList ∨
      ("Processing Code".toList, Value.vstr ("123456".toList)).1 = "record_format".toList ∨
      ∃ n fd, ISO_FIELD_DEFS n = some fd ∧
        ("Processing Code".toList, Value.vstr ("123456".toList)).1 = fd.name := by
  have hmem : [("mti".toList, Value.vstr ("1240".toList)),
      ("record_format".toList, Value.vstr ("binary".toList)),
      ("Processing Code".toList, Value.vstr ("123456".toList))] ∈
      parse_iso8583_binary ([49, 50, 52, 48] ++ [32, 0, 0, 0, 0, 0, 0, 0] ++
        [49, 50, 51, 52, 53, 54]) := by
    show _ ∈ parseLoop _ 0 []
    rw [parseLoop_step _ 0 [] (by decide) (by decide)]
    rw [show parseStep ([49, 50, 52, 48] ++ [32, 0, 0, 0, 0, 0, 0, 0] ++
        [49, 50, 51, 52, 53, 54]) 0 =
        (18, [("mti".toList, Value.vstr ("1240".toList)),
              ("record_format".toList, Value.vstr ("binary".toList)),
              ("Processing Code".toList, Value.vstr ("123456".toList))]) from by decide]
    rw [parseLoop_stop_mti _ 18 _ (by decide)]
    simp
  exact c3_registry_miss_skipped.1 _ _ _ hmem (by simp)

/-- The field scan over the 64 bitmap digits equals the scan over the
filtered list of present registered fields. -/
theorem fieldScan_eq_simpleScan (content : List Nat) :
    ∀ (bits : List Bool) (fieldPos pos : Nat) (fs : Rec),
      fieldScan content bits fieldPos pos fs =
        simpleScan content (activeDefs bits fieldPos) pos fs := by
  intro bits
  induction bits with
  | nil =>
    intro fp pos fs
    rfl
  | cons b rest ih =>
    intro fp pos fs
    rw [fieldScan, activeDefs]
    cases b with
    | false => exact ih (fp + 1) pos fs
    | true =>
      rw [if_pos rfl, if_pos rfl]
      cases hdef : ISO_FIELD_DEFS fp with
      | none => exact ih (fp + 1) pos fs
      | some fd =>
        show (if content.length < pos + fd.flen then (pos, fs)
            else fieldScan content rest (fp + 1) (pos + fd.flen)
              (fs ++ [(fd.name, decodeFieldValue fp fd (sliceB content pos fd.flen))])) =
          (if content.length < pos + fd.flen then (pos, fs)
            else simpleScan content (activeDefs rest (fp + 1)) (pos + fd.flen)
              (fs ++ [(fd.name, decodeFieldValue fp fd (sliceB content pos fd.flen))]))
        by_cases hfit : content.length < pos + fd.flen
        · rw [if_pos hfit, if_pos hfit]
        · rw [if_neg hfit, if_neg hfit]
          exact ih (fp + 1) (pos + fd.flen) _

/-- Scanning a fully fitting run of fields decodes all of them,
appending their entries in order and moving the cursor to the end of the
run. -/
theorem simpleScan_fits_append (content : List Nat) :
    ∀ (ds rest : List (Nat × FieldDef)) (pos : Nat) (fs : Rec),
      seqFits content pos ds = true →
      simpleScan content (ds ++ rest) pos fs =
        simpleScan content rest (endPos pos ds) (fs ++ decodeAll content pos ds) := by
  intro ds
  induction ds with
  | nil =>
    intro rest pos fs _
    simp [endPos, decodeAll]
  | cons d ds2 ih =>
    intro rest pos fs hfits
    rw [seqFits, Bool.and_eq_true, decide_eq_true_eq] at hfits
    obtain ⟨hfit, hfits2⟩ := hfits
    rw [List.cons_append, simpleScan, if_neg (by omega)]
    rw [ih rest (pos + d.2.flen) _ hfits2]
    rw [decodeAll]
    rw [show endPos pos (d :: ds2) = endPos (pos + d.2.flen) ds2 from by
      simp [endPos]; omega]
    simp

/-- A field whose declared length exceeds the remaining bytes stops the
scan at once, leaving cursor and entries unchanged. -/
theorem simpleScan_trunc (content : List Nat) (d : Nat × FieldDef)
    (ds : List (Nat × FieldDef)) (pos : Nat) (fs : Rec)
    (h : content.length < pos + d.2.flen) :
    simpleScan content (d :: ds) pos fs = (pos, fs) := by
  rw [simpleScan, if_pos h]

/-- C4: a record whose bitmap declares a run `A1` of registered fields
that fits, followed by a field `d` that does not fit, is emitted with
exactly the decoded entries of `A1` — the truncated field and all later
fields are omitted — while every earlier record (`acc`) is kept and the
loop then continues at the truncation point. -/
theorem c4_truncation_tolerance (content : List Nat) (pos0 : Nat) (acc : List Rec)
    (A1 : List (Nat × FieldDef)) (d : Nat × FieldDef) (A2 : List (Nat × FieldDef))
    (h8 : pos0 + 4 + 8 ≤ content.length)
    (hact : activeDefs (bitmapBits (beBytes (sliceB content (pos0 + 4) 8))) 1 = A1 ++ d :: A2)
    (hfits : seqFits content (pos0 + 4 + 8) A1 = true)
    (htrunc : content.length < endPos (pos0 + 4 + 8) A1 + d.2.flen) :
    parseLoop content pos0 acc =
      acc ++ (baseRec (safe_decode (sliceB content pos0 4)) ++
          decodeAll content (pos0 + 4 + 8) A1) ::
        parseLoop content (endPos (pos0 + 4 + 8) A1) [] := by
  have h4 : pos0 + 4 ≤ content.length := by omega
  rw [parseLoop_step content pos0 acc h4 h8]
  have hstep : parseStep content pos0 =
      (endPos (pos0 + 4 + 8) A1,
        baseRec (safe_decode (sliceB content pos0 4)) ++ decodeAll content (pos0 + 4 + 8) A1) := by
    rw [parseStep, fieldScan_eq_simpleScan, hact,
      simpleScan_fits_append content A1 (d :: A2) _ _ hfits,
      simpleScan_trunc content d A2 _ _ (by omega)]
  rw [hstep]
  rw [parseLoop_append_eq content (endPos (pos0 + 4 + 8) A1) (acc ++ [_])]
  simp

/-- C4, witness: MTI `"1240"`, bitmap with fields 3 and 4 set, 6 bytes
for field 3 and only 6 of the 12 bytes field 4 declares: the record
keeps field 3, omits field 4, and the loop resumes at offset 18. -/
theorem c4_truncation_tolerance_witness :
    parseLoop ([49, 50, 52, 48] ++ [48, 0, 0, 0, 0, 0, 0, 0] ++
        [49, 50, 51, 52, 53, 54] ++ [48, 48, 48, 48, 48, 48]) 0 [] =
      [] ++ (baseRec (safe_decode (sliceB ([49, 50, 52, 48] ++ [48, 0, 0, 0, 0, 0, 0, 0] ++
          [49, 50, 51, 52, 53, 54] ++ [48, 48, 48, 48, 48, 48]) 0 4)) ++
        decodeAll ([49, 50, 52, 48] ++ [48, 0, 0, 0, 0, 0, 0, 0] ++
          [49, 50, 51, 52, 53, 54] ++ [48, 48, 48, 48, 48, 48]) (0 + 4 + 8)
          [(3, ⟨"Processing Code".toList, 6, "n".toList, Conv.idc⟩)]) ::
      parseLoop ([49, 50, 52, 48] ++ [48, 0, 0, 0, 0, 0, 0, 0] ++
        [49, 50, 51, 52, 53, 54] ++ [48, 48, 48, 48, 48, 48])
        (endPos (0 + 4 + 8) [(3, ⟨"Processing Code".toList, 6, "n".toList, Conv.idc⟩)]) [] := by
  exact c4_truncation_tolerance _ 0 []
    [(3, ⟨"Processing Code".toList, 6, "n".toList, Conv.idc⟩)]
    (4, ⟨"Amount Transaction".toList, 12, "n".toList, Conv.amountc⟩) []
    (by decide) (by decide) (by decide) (by decide)

/-- Field lists without an Amount entry never raise. -/
theorem t112FieldsGo_ne_none (record : List Char) :
    ∀ (fs : List (List Char × Nat × Nat)), (∀ f ∈ fs, f.1 ≠ "Amount".toList) →
      ∀ acc, t112FieldsGo record fs acc ≠ none := by
  intro fs
  induction fs with
  | nil =>
    intro _ acc h
    exact absurd h (by rw [t112FieldsGo]; simp)
  | cons f rest ih =>
    intro hno acc
    obtain ⟨name, start, len⟩ := f
    rw [t112FieldsGo]
    by_cases hp : name = "PAN".toList
    · rw [if_pos hp]
      exact ih (fun g hg => hno g (List.mem_cons_of_mem _ hg)) _
    · rw [if_neg hp, if_neg (hno _ (List.mem_cons_self _ _))]
      exact ih (fun g hg => hno g (List.mem_cons_of_mem _ hg)) _

/-- `parse_t112_record` raises (`none`) exactly when `int()` fails on
the Amount slice. -/
theorem parse_t112_record_none_iff (record : List Char) :
    parse_t112_record record = none ↔ pyInt? (amountArg record) = none := by
  have harg : (match stripChars isPySpace ((record.drop 29).take 12) with
      | [] => "0".toList
      | _ => stripChars isPySpace ((record.drop 29).take 12)) = amountArg record := by
    rw [amountArg]
    cases stripChars isPySpace ((record.drop 29).take 12) with
    | nil => rfl
    | cons c cs => rfl
  rw [parse_t112_record, t112Fields]
  rw [t112FieldsGo, if_neg (by decide), if_neg (by decide)]
  rw [t112FieldsGo, if_pos rfl]
  rw [t112FieldsGo, if_neg (by decide), if_neg (by decide)]
  rw [t112FieldsGo, if_neg (by decide), if_pos rfl]
  rw [harg]
  split
  · rename_i n heq
    rw [heq]
    constructor
    · intro h
      exact absurd h (t112FieldsGo_ne_none record _ (by decide) _)
    · intro h
      exact absurd h (by simp)
  · rename_i heq
    rw [heq]
    simp

/-- `processGo` fails exactly when some record's parse raises. -/
theorem processGo_none_iff :
    ∀ (rs : List (List Char)), processGo rs = none ↔
      ∃ r ∈ rs, parse_t112_record r = none := by
  intro rs
  induction rs with
  | nil =>
    rw [processGo]
    simp
  | cons r rest ih =>
    rw [processGo]
    cases hp : parse_t112_record r with
    | none =>
      constructor
      · intro _
        exact ⟨r, List.mem_cons_self r rest, hp⟩
      · intro _
        rfl
    | some parsed =>
      cases hgo : processGo rest with
      | none =>
        constructor
        · intro _
          obtain ⟨r2, hr2, hparse⟩ := ih.mp hgo
          exact ⟨r2, List.mem_cons_of_mem r hr2, hparse⟩
        · intro _
          rfl
      | some ps =>
        constructor
        · intro h
          exact absurd h (by simp)
        · rintro ⟨r2, hr2, hparse⟩
          rcases List.mem_cons.mp hr2 with rfl | hr3
          · rw [hp] at hparse
            exact absurd hparse (by simp)
          · have := ih.mpr ⟨r2, hr3, hparse⟩
            rw [this] at hgo
            exact absurd hgo (by simp)

/-- `processGo` emits one parsed row per input record. -/
theorem processGo_length :
    ∀ (rs : List (List Char)) (ps : List (List (List Char × List Char))),
      processGo rs = some ps → ps.length = rs.length := by
  intro rs
  induction rs with
  | nil =>
    intro ps h
    rw [processGo] at h
    simp at h
    rw [h]
    rfl
  | cons r rest ih =>
    intro ps h
    rw [processGo] at h
    cases hp : parse_t112_record r with
    | none =>
      rw [hp] at h
      exact absurd h (by simp)
    | some parsed =>
      rw [hp] at h
      cases hgo : processGo rest with
      | none =>
        rw [hgo] at h
        exact absurd h (by simp)
      | some ps2 =>
        rw [hgo] at h
        simp at h
        rw [← h]
        simp [ih ps2 hgo]

/-- C7, counterexample: a 256-byte buffer of `'A'`s makes
`int('AAAAAAAAAAAA')` raise `ValueError`, which escapes
`process_t112_file` — the pass aborts with no records and no
diagnostics. -/
theorem c7_counterexample : process_t112_file (List.replicate 256 65) = none := by
  have hchunk : chunksOf256 (List.replicate 256 65) = [List.replicate 256 65] := by
    rw [chunksOf256, if_neg (by decide)]
    rw [show (List.replicate 256 (65 : Nat)).drop 256 = ([] : List Nat) from by decide]
    rw [show (List.replicate 256 (65 : Nat)).take 256 = List.replicate 256 65 from by decide]
    rw [chunksOf256, if_pos rfl]
  have hrecs : t112Records (List.replicate 256 65) = [List.replicate 256 'A'] := by
    rw [t112Records, hchunk]
    decide
  simp only [process_t112_file]
  rw [hrecs]
  decide

/-- C7, amended: the fixed-width T112 decoder returns normally iff every
record's Amount slice parses as an integer; a non-numeric Amount raises
`ValueError` past the engine boundary, aborting the record and the whole
pass (nothing degrades to raw hex or null). -/
theorem c7_exception_boundary :
    (∀ data : List Nat, process_t112_file data = none ↔
      ∃ r ∈ t112Records data, pyInt? (amountArg r) = none) ∧
    (∀ record : List Char, pyInt? (amountArg record) = none →
      parse_t112_record record = none) := by
  have hmain : ∀ data : List Nat, process_t112_file data = none ↔
      ∃ r ∈ t112Records data, pyInt? (amountArg r) = none := by
    intro data
    simp only [process_t112_file]
    cases hgo : processGo (t112Records data) with
    | none =>
      constructor
      · intro _
        obtain ⟨r, hr, hp⟩ := (processGo_none_iff (t112Records data)).mp hgo
        exact ⟨r, hr, (parse_t112_record_none_iff r).mp hp⟩
      · intro _
        rfl
    | some ps =>
      constructor
      · intro h
        exact absurd h (by simp)
      · rintro ⟨r, hr, hp⟩
        have := (processGo_none_iff (t112Records data)).mpr
          ⟨r, hr, (parse_t112_record_none_iff r).mpr hp⟩
        rw [this] at hgo
        exact absurd hgo (by simp)
  exact ⟨hmain, fun record h => (parse_t112_record_none_iff record).mpr h⟩

/-- C7, witness: an all-`'0'` buffer has a numeric Amount slice, so the
decoder returns normally. -/
theorem c7_exception_boundary_witness :
    process_t112_file (List.replicate 256 48) ≠ none := by
  intro hcontra
  obtain ⟨r, hr, hint⟩ := (c7_exception_boundary.1 (List.replicate 256 48)).mp hcontra
  have hchunk : chunksOf256 (List.replicate 256 48) = [List.replicate 256 48] := by
    rw [chunksOf256, if_neg (by decide)]
    rw [show (List.replicate 256 (48 : Nat)).drop 256 = ([] : List Nat) from by decide]
    rw [show (List.replicate 256 (48 : Nat)).take 256 = List.replicate 256 48 from by decide]
    rw [chunksOf256, if_pos rfl]
  have hrecs : t112Records (List.replicate 256 48) = [List.replicate 256 '0'] := by
    rw [t112Records, hchunk]
    decide
  rw [hrecs] at hr
  have : r = List.replicate 256 '0' := by simpa using hr
  rw [this] at hint
  exact absurd hint (by decide)

/-- The record list holds exactly the full 256-byte chunks:
`⌊length / 256⌋` of them. -/
theorem t112Records_length (data : List Nat) :
    (t112Records data).length = data.length / 256 := by
  induction data using chunksOf256.induct with
  | case1 =>
    rw [t112Records, chunksOf256, if_pos rfl]
    rfl
  | case2 x hne ih =>
    rw [t112Records, chunksOf256, if_neg hne, List.filter_cons]
    by_cases hfull : 256 ≤ x.length
    · have htk : decide ((x.take 256).length = T112_RECORD_LENGTH) = true := by
        rw [decide_eq_true_eq, T112_RECORD_LENGTH]
        simp [List.length_take]
        omega
      rw [if_pos htk]
      have hlen2 : ((chunksOf256 (x.drop 256)).filter
          (fun r => r.length = T112_RECORD_LENGTH)).length = (x.drop 256).length / 256 := by
        have := ih
        rw [t112Records] at this
        simpa using this
      simp only [List.length_map, List.length_cons]
      rw [show ((chunksOf256 (x.drop 256)).filter
          (fun r => decide (r.length = T112_RECORD_LENGTH))).length = (x.drop 256).length / 256
        from hlen2]
      rw [List.length_drop]
      rw [Nat.div_eq_sub_div (by norm_num) hfull]
    · have htk : ¬ (decide ((x.take 256).length = T112_RECORD_LENGTH) = true) := by
        rw [decide_eq_true_eq, T112_RECORD_LENGTH]
        simp [List.length_take]
        omega
      rw [if_neg htk]
      rw [show x.drop 256 = ([] : List Nat) from List.drop_eq_nil_of_le (by omega)]
      rw [chunksOf256, if_pos rfl]
      rw [Nat.div_eq_of_lt (by omega)]
      rfl

/-- C10, counterexample: for the 256-byte buffer of `'B'`s the claimed
count is `⌊256/256⌋ = 1`, but the decoder raises before emitting or
reporting anything. -/
theorem c10_counterexample :
    process_t112_file (List.replicate 256 66) = none ∧
      (List.replicate 256 66 : List Nat).length / 256 = 1 := by
  refine ⟨?_, by simp⟩
  have hchunk : chunksOf256 (List.replicate 256 66) = [List.replicate 256 66] := by
    rw [chunksOf256, if_neg (by decide)]
    rw [show (List.replicate 256 (66 : Nat)).drop 256 = ([] : List Nat) from by decide]
    rw [show (List.replicate 256 (66 : Nat)).take 256 = List.replicate 256 66 from by decide]
    rw [chunksOf256, if_pos rfl]
  have hrecs : t112Records (List.replicate 256 66) = [List.replicate 256 'B'] := by
    rw [t112Records, hchunk]
    decide
  simp only [process_t112_file]
  rw [hrecs]
  decide

/-- C10, amended: the t112new variant always emits and reports
`⌊length / 256⌋` records (a short trailing chunk is silently dropped);
the mastercard_parser variant does the same whenever it returns at all,
but a non-numeric Amount in any full chunk makes it raise instead. -/
theorem c10_chunk_count :
    (∀ data : List Nat, (t112new_records data).length = data.length / 256 ∧
      (t112new_parsed data).length = data.length / 256) ∧
    (∀ (data : List Nat) (res : List (List (List Char × List Char)) × Nat),
      process_t112_file data = some res →
      res.2 = data.length / 256 ∧ res.1.length = data.length / 256) := by
  constructor
  · intro data
    refine ⟨t112Records_length data, ?_⟩
    rw [t112new_parsed, List.length_map]
    exact t112Records_length data
  · intro data res h
    simp only [process_t112_file] at h
    cases hgo : processGo (t112Records data) with
    | none =>
      rw [hgo] at h
      exact absurd h (by simp)
    | some ps =>
      rw [hgo] at h
      simp only [Option.some.injEq] at h
      rw [← h]
      refine ⟨t112Records_length data, ?_⟩
      rw [show (ps, (t112Records data).length).1 = ps from rfl]
      rw [processGo_length (t112Records data) ps hgo]
      exact t112Records_length data

/-- C10, witness: a 300-byte buffer yields one t112new record, and the
256-byte all-`'0'` buffer is processed with a reported count of 1. -/
theorem c10_chunk_count_witness :
    (t112new_records (List.replicate 300 48)).length = 1 ∧
      (process_t112_file (List.replicate 256 48)).map (fun r => r.2) = some 1 := by
  constructor
  · have := (c10_chunk_count.1 (List.replicate 300 48)).1
    simpa using this
  · have hchunk : chunksOf256 (List.replicate 256 48) = [List.replicate 256 48] := by
      rw [chunksOf256, if_neg (by decide)]
      rw [show (List.replicate 256 (48 : Nat)).drop 256 = ([] : List Nat) from by decide]
      rw [show (List.replicate 256 (48 : Nat)).take 256 = List.replicate 256 48 from by decide]
      rw [chunksOf256, if_pos rfl]
    have hex : ∃ res, process_t112_file (List.replicate 256 48) = some res := by
      simp only [process_t112_file]
      rw [show t112Records (List.replicate 256 48) = [List.replicate 256 '0'] from by
        rw [t112Records, hchunk]; decide]
      cases hgo : processGo [List.replicate 256 '0'] with
      | none => exact absurd hgo (by decide)
      | some ps => exact ⟨(ps, 1), rfl⟩
    obtain ⟨res, hres⟩ := hex
    have h2 := (c10_chunk_count.2 (List.replicate 256 48) res hres).1
    rw [hres]
    simp only [Option.map_some']
    rw [h2]
    simp

/-- C8, counterexample: `"1240a4111111111111111"` contains a 16-digit
run beginning with 4 (so the claim's acceptance test keeps its single
candidate segment), but the source's `\b`-bounded `PAN_PATTERN` rejects
it because the run is preceded by the word character `'a'` — the
heuristic returns nothing. -/
theorem c8_counterexample :
    extract_records_from_raw_text ("1240a4111111111111111".toList) = [] ∧
      claimExtractRecords ("1240a4111111111111111".toList) =
        ["1240a4111111111111111".toList] := by
  decide

/-- C8, amended: every returned candidate contains a `\b`-delimited
12–19-digit run starting 4/5 (`PAN_PATTERN`); no minimum-length
threshold exists (the 17-character fragment below is returned), and the
genuine-plus-spurious scenario yields exactly one candidate. -/
theorem c8_boundary_heuristic :
    (∀ (content r : List Char), r ∈ extract_records_from_raw_text content →
      hasPanMatch r = true) ∧
    extract_records_from_raw_text ("1240 4111111111111111 1442 hello".toList) =
      ["1240 4111111111111111".toList] ∧
    extract_records_from_raw_text ("1240-511111111111".toList) =
      ["1240-511111111111".toList] := by
  refine ⟨?_, by decide, by decide⟩
  intro content r hr
  simp only [extract_records_from_raw_text] at hr
  split at hr
  · exact absurd hr (by simp)
  · exact (List.mem_filter.mp hr).2

/-- C8, witness: the accepted scenario record indeed matches
`PAN_PATTERN`. -/
theorem c8_boundary_heuristic_witness :
    hasPanMatch ("1240 4111111111111111".toList) = true :=
  c8_boundary_heuristic.1 ("1240 4111111111111111 1442 hello".toList)
    ("1240 4111111111111111".toList) (by decide)

/-- A list is a prefix of itself followed by anything. -/
theorem isPrefixOf_self_append : ∀ (l t : List Char), l.isPrefixOf (l ++ t) = true := by
  intro l
  induction l with
  | nil =>
    intro t
    simp [List.isPrefixOf]
  | cons c cs ih =>
    intro t
    simp only [List.cons_append, List.isPrefixOf]
    simp [ih t]

/-- Field entries produced by the specification loop sit on top of the
accumulator and all carry `"Field "`-prefixed keys. -/
theorem specFieldsGo_keys (record : List Char) :
    ∀ (spec : List (List Char × SpecEntry)) (cursor : Nat)
      (acc fe : List (List Char × List Char)),
      specFieldsGo record spec cursor acc = some fe →
      ∀ kv ∈ fe, kv ∈ acc ∨ ("Field ".toList).isPrefixOf kv.1 = true := by
  intro spec
  induction spec with
  | nil =>
    intro cursor acc fe h kv hkv
    rw [specFieldsGo] at h
    simp only [Option.some.injEq] at h
    rw [← h] at hkv
    exact Or.inl hkv
  | cons e rest ih =>
    intro cursor acc fe h kv hkv
    obtain ⟨fid, fs⟩ := e
    rw [specFieldsGo] at h
    cases hml : fs.max_len with
    | none =>
      rw [hml] at h
      exact absurd h (by simp)
    | some length =>
      rw [hml] at h
      rcases ih _ _ _ h kv hkv with hin | hpre
      · rcases List.mem_append.mp hin with hin2 | hin2
        · exact Or.inl hin2
        · right
          have : kv = ("Field ".toList ++ fid,
              stripChars isPySpace (slC record cursor (cursor + length))) := by
            simpa using hin2
          rw [this]
          exact isPrefixOf_self_append ("Field ".toList) fid
      · exact Or.inr hpre

/-- C9: with no specification for a record's MTI and no usable default
(`load_spec_for_mti = none`), the parser returns for that record exactly
the MTI, its meaning, and the explicit `"❌ Error: No Spec"` status — no
`"Field N"` entries; the per-record map leaves every other record's
parse untouched; and a record parsed with a specification ends in a
`"✅ Pass"`/`"❌ Fail"` status instead, so the error outcome is
distinguishable. -/
theorem c9_config_fault :
    (∀ (env : SpecsEnv) (record0 : List Char),
      load_spec_for_mti env ((stripChars isPySpace record0).take 4) = none →
      parse_mastercard_iso8583 env record0 =
        [("MTI".toList, (stripChars isPySpace record0).take 4),
         ("MTI Meaning".toList,
           ((env.mtiRules.lookup ((stripChars isPySpace record0).take 4))).getD
             (if (stripChars isPySpace record0).take 4 = [] then "Missing MTI".toList
              else "Unknown MTI (".toList ++ (stripChars isPySpace record0).take 4 ++
                ")".toList)),
         ("Status".toList, "❌ Error: No Spec".toList)] ∧
      ∀ kv ∈ parse_mastercard_iso8583 env record0,
        ¬ (("Field ".toList).isPrefixOf kv.1 = true)) ∧
    (∀ (env : SpecsEnv) (rs1 rs2 : List (List Char)) (r : List Char),
      parse_mastercard_all env (rs1 ++ r :: rs2) =
        parse_mastercard_all env rs1 ++
          parse_mastercard_iso8583 env r :: parse_mastercard_all env rs2) ∧
    (∀ (env2 : SpecsEnv) (r2 : List Char) (spec : List (List Char × SpecEntry))
      (fe : List (List Char × List Char)),
      load_spec_for_mti env2 ((stripChars isPySpace r2).take 4) = some spec →
      specFieldsGo (stripChars isPySpace r2) spec 4 [] = some fe →
      ∃ st, (parse_mastercard_iso8583 env2 r2).getLast? = some ("Status".toList, st) ∧
        (st = "✅ Pass".toList ∨ st = "❌ Fail".toList)) := by
  refine ⟨?_, ?_, ?_⟩
  · intro env record0 hload
    have heq : parse_mastercard_iso8583 env record0 =
        [("MTI".toList, (stripChars isPySpace record0).take 4),
         ("MTI Meaning".toList,
           ((env.mtiRules.lookup ((stripChars isPySpace record0).take 4))).getD
             (if (stripChars isPySpace record0).take 4 = [] then "Missing MTI".toList
              else "Unknown MTI (".toList ++ (stripChars isPySpace record0).take 4 ++
                ")".toList)),
         ("Status".toList, "❌ Error: No Spec".toList)] := by
      simp only [parse_mastercard_iso8583, hload]
    refine ⟨heq, ?_⟩
    intro kv hkv
    rw [heq] at hkv
    rcases List.mem_cons.mp hkv with h1 | hkv
    · rw [h1]
      exact (by decide : ¬ (("Field ".toList).isPrefixOf ("MTI".toList) = true))
    rcases List.mem_cons.mp hkv with h1 | hkv
    · rw [h1]
      exact (by decide : ¬ (("Field ".toList).isPrefixOf ("MTI Meaning".toList) = true))
    rcases List.mem_cons.mp hkv with h1 | hkv
    · rw [h1]
      exact (by decide : ¬ (("Field ".toList).isPrefixOf ("Status".toList) = true))
    · exact absurd hkv (by simp)
  · intro env rs1 rs2 r
    rw [parse_mastercard_all, parse_mastercard_all, parse_mastercard_all]
    simp
  · intro env2 r2 spec fe hload hfe
    have hlast : ∀ (l : List (List Char × List Char)) (a b : List Char × List Char),
        (l ++ [a, b]).getLast? = some b := by
      intro l a b
      rw [show l ++ [a, b] = (l ++ [a]) ++ [b] from by simp]
      exact List.getLast?_concat _
    have hor : ∀ (c : Prop) (hd : Decidable c) (a b : List Char),
        (if c then a else b) = a ∨ (if c then a else b) = b := by
      intro c hd a b
      split
      · exact Or.inl rfl
      · exact Or.inr rfl
    simp only [parse_mastercard_iso8583, hload, hfe]
    exact ⟨_, hlast _ _ _, hor _ _ _ _⟩

/-- C9, witness: with an empty rules table and no spec files at all, the
record `"1240HELLO"` is returned with the explicit error status. -/
theorem c9_config_fault_witness :
    parse_mastercard_iso8583
        ⟨[], fun _ => FileRead.missing, FileRead.missing⟩ ("1240HELLO".toList) =
      [("MTI".toList, "1240".toList),
       ("MTI Meaning".toList, "Unknown MTI (1240)".toList),
       ("Status".toList, "❌ Error: No Spec".toList)] := by
  have h := (c9_config_fault.1
    ⟨[], fun _ => FileRead.missing, FileRead.missing⟩ ("1240HELLO".toList) rfl).1
  rw [h]
  decide

end Mastercard
